import Mathlib

/-!
Verification of the rule-matching / categorization engine of
`tiller-auto-tag-excel` (`src/taskpane/taskpane.ts`).

The engine is shallowly embedded: JS numbers are `Option ℚ` (`none` = `NaN`,
which makes every `<` / `>` comparison false), JS `Set<string>` is an
insertion-ordered duplicate-free `List String`, a JS `Date` is carried as the
raw string it was constructed from (no claim inspects date values), and JS
`undefined` in an output cell is `Option.none`.
-/

set_option autoImplicit false

namespace AutoTag

/-- A JS number: `some q` is an ordinary numeric value (modelled as a
rational), `none` is `NaN`. -/
abbrev JsNumber := Option ℚ

/-- JS `a < b`: false whenever either operand is `NaN`. -/
def jsLt : JsNumber → JsNumber → Bool
  | some a, some b => a < b
  | _, _ => false

/-- JS `a > b`: false whenever either operand is `NaN`. -/
def jsGt : JsNumber → JsNumber → Bool
  | some a, some b => b < a
  | _, _ => false

/-- Numeric value of a list of decimal digit characters (most significant
first). -/
def digitsVal (l : List Char) : ℕ :=
  l.foldl (fun a c => 10 * a + (c.toNat - 48)) 0

/-- The unsigned part of JS `parseFloat`: longest prefix of the form
`digits`, `digits.digits`, `.digits` or `digits.`; at least one digit must be
consumed, otherwise the result is `NaN` (`none`).  Trailing unparseable text
is ignored, exactly as `parseFloat` ignores it.  The decimal value
`intPart + fracPart / 10 ^ len` is built as the single quotient
`(intPart * 10 ^ len + fracPart) / 10 ^ len`. -/
def parseUnsigned (l : List Char) : Option ℚ :=
  let ip := l.takeWhile Char.isDigit
  let rest := l.dropWhile Char.isDigit
  let fp := match rest with
    | '.' :: r => r.takeWhile Char.isDigit
    | _ => []
  if ip.isEmpty && fp.isEmpty then none
  else some (Rat.divInt (digitsVal ip * 10 ^ fp.length + digitsVal fp) (10 ^ fp.length))

/-- JS `parseFloat`, on the character alphabet this program feeds it
(signs, digits, `.`; an exponent `e` or the word `Infinity` never occurs in a
regex capture over the class `[-\d.]`, so those forms are not modelled).
`none` is `NaN`. -/
def parseFloat (l : List Char) : Option ℚ :=
  match l.dropWhile Char.isWhitespace with
  | '-' :: rest => (parseUnsigned rest).map (fun q => -q)
  | '+' :: rest => parseUnsigned rest
  | l' => parseUnsigned l'

/-- The regex character class `[-\d.]` of the amount-bound patterns. -/
def boundChar (c : Char) : Bool :=
  c == '-' || c.isDigit || c == '.'

/-- `/(?:M([-\d.]+))/.exec(s)` for a marker character `M` (`>` or `<`):
scan left to right for the first occurrence of `M` followed by at least one
class character, and return the greedy capture group (the maximal run of
class characters after that `M`); `none` when the pattern matches nowhere. -/
def execCapture (marker : Char) : List Char → Option (List Char)
  | [] => none
  | c :: rest =>
    if c == marker && !(rest.takeWhile boundChar).isEmpty then
      some (rest.takeWhile boundChar)
    else
      execCapture marker rest

/-- JS `s.split(",")` on the character list: split at every comma; the empty
string yields `[""]`, a trailing comma yields a trailing empty field. -/
def splitComma : List Char → List (List Char)
  | [] => [[]]
  | c :: rest =>
    match splitComma rest with
    | [] => [[c]]
    | h :: t => if c == ',' then [] :: h :: t else (c :: h) :: t

/-- JS `Set.add` on the insertion-ordered element list: append the element
unless already present. -/
def setAdd (l : List String) (x : String) : List String :=
  if x ∈ l then l else l ++ [x]

/-- `Rule` (taskpane.ts lines 64–107).  `tag` is the JS `Set<string>` as its
insertion-ordered element list. -/
structure Rule where
  category : String
  tag : List String
  description : String
  account : String
  institution : String
  amount : String
deriving DecidableEq

/-- The `Rule` constructor (lines 72–80): the tag set is the comma-split of
the raw tag cell, de-duplicated in first-occurrence order, with the empty
string deleted. -/
def Rule.new (category tagRaw description account institution amount : String) : Rule :=
  { category := category
    tag := (((splitComma tagRaw.data).map String.mk).foldl setAdd []).filter (fun s => s ≠ "")
    description := description
    account := account
    institution := institution
    amount := amount }

/-- `startMatch sub l`: `sub` occurs at the very start of `l`. -/
def startMatch : List Char → List Char → Bool
  | [], _ => true
  | _ :: _, [] => false
  | c :: cs, d :: ds => c == d && startMatch cs ds

/-- `occursIn sub l`: `sub` occurs contiguously somewhere in `l`. -/
def occursIn (sub : List Char) : List Char → Bool
  | [] => sub.isEmpty
  | c :: rest => startMatch sub (c :: rest) || occursIn sub rest

/-- JS `testString.includes(sub)`: case-sensitive substring containment. -/
def jsIncludes (testString sub : String) : Bool :=
  occursIn sub.data testString.data

/-- `Rule.matchDescription` (lines 82–84). -/
def Rule.matchDescription (r : Rule) (testString : String) : Bool :=
  r.description == "" || jsIncludes testString r.description

/-- `Rule.matchAccount` (lines 85–87). -/
def Rule.matchAccount (r : Rule) (testString : String) : Bool :=
  r.account == "" || jsIncludes testString r.account

/-- `Rule.matchInstitution` (lines 88–90). -/
def Rule.matchInstitution (r : Rule) (testString : String) : Bool :=
  r.institution == "" || jsIncludes testString r.institution

/-- `Rule.matchAmount` (lines 91–106): extract a lower bound after `>` and an
upper bound after `<` by regex, then compare; a `NaN` on either side of a
comparison makes that comparison false. -/
def Rule.matchAmount (r : Rule) (testNumber : JsNumber) : Bool :=
  let lowerBound := execCapture '>' r.amount.data
  let upperBound := execCapture '<' r.amount.data
  match lowerBound, upperBound with
  | none, none => true
  | some lb, some ub => jsGt testNumber (parseFloat lb) && jsLt testNumber (parseFloat ub)
  | some lb, none => jsGt testNumber (parseFloat lb)
  | none, some ub => jsLt testNumber (parseFloat ub)

/-- A JS `Date` carried as its raw construction string (no claim inspects
parsed date values, only that they are preserved). -/
structure JsDate where
  raw : String
deriving DecidableEq

/-- `Transaction` (lines 109–143). -/
structure Transaction where
  address : Option ℕ
  date : JsDate
  description : String
  category : String
  tags : List String
  amount : JsNumber
  account : String
  accountNum : String
  institution : String
  month : JsDate
  week : JsDate
  fullDescription : String
  checkNumber : String
  transactionId : String
  categorized : Bool
deriving DecidableEq

/-- JS `s.replace("$", "")`: remove the first occurrence of `$`. -/
def removeFirstDollar : List Char → List Char
  | [] => []
  | c :: rest => if c == '$' then rest else c :: removeFirstDollar rest

/-- The `Transaction` constructor (lines 125–142): 13 text cells in fixed
order; the tag set is comma-split with the empty string removed; the amount
is `parseFloat` of the cell with a leading `$` stripped; `categorized`
starts `false`. -/
def Transaction.new (rowArray : List String) (address : Option ℕ) : Transaction :=
  { date := ⟨rowArray.getD 0 ""⟩
    description := rowArray.getD 1 ""
    category := rowArray.getD 2 ""
    tags := (((splitComma (rowArray.getD 3 "").data).map String.mk).foldl setAdd []).filter
      (fun s => s ≠ "")
    amount := parseFloat (removeFirstDollar (rowArray.getD 4 "").data)
    account := rowArray.getD 5 ""
    accountNum := rowArray.getD 6 ""
    institution := rowArray.getD 7 ""
    month := ⟨rowArray.getD 8 ""⟩
    week := ⟨rowArray.getD 9 ""⟩
    fullDescription := rowArray.getD 10 ""
    checkNumber := rowArray.getD 11 ""
    transactionId := rowArray.getD 12 ""
    address := address
    categorized := false }

/-- `ruleMatch` (lines 246–251): a rule fires iff all four predicates hold. -/
def ruleMatch (rule : Rule) (transaction : Transaction) : Bool :=
  rule.matchDescription transaction.description &&
  rule.matchAccount transaction.account &&
  rule.matchInstitution transaction.institution &&
  rule.matchAmount transaction.amount

/-- `categorizable` (lines 252–261). -/
def categorizable (uncategorizedOnly : Bool) (transaction : Transaction) : Bool :=
  !transaction.categorized &&
    (!uncategorizedOnly || (uncategorizedOnly && transaction.category == ""))

/-- One iteration of the inner rule loop (lines 245–271): on a firing rule,
assign category when categorizable, then union the rule's tags in. -/
def applyRule (uncategorizedOnly : Bool) (transaction : Transaction) (rule : Rule) : Transaction :=
  if ruleMatch rule transaction then
    let t := if categorizable uncategorizedOnly transaction then
        { transaction with category := rule.category, categorized := true }
      else transaction
    { t with tags := rule.tag.foldl setAdd t.tags }
  else transaction

/-- The full inner loop of `runRules` for one transaction. -/
def runRulesOne (rules : List Rule) (uncategorizedOnly : Bool) (t : Transaction) : Transaction :=
  rules.foldl (applyRule uncategorizedOnly) t

/-- `runRules` (lines 239–275).  `Array.from(map.values())` yields the
transactions in insertion order, so the collection is its ordered value
list; each transaction is processed independently by the inner rule loop
and pushed to the result in order. -/
def runRules (rules : List Rule) (transactions : List Transaction)
    (uncategorizedOnly : Bool) : List Transaction :=
  transactions.map (runRulesOne rules uncategorizedOnly)

/-- A spreadsheet cell value as produced by `scrapeTags`: `none` models the
JS `undefined` left in a never-assigned variable. -/
abbrev Cell := Option String

/-- `scrapeTags` (lines 311–321): one single-cell row per transaction, in
input order; the cell is the comma-join of the tag set when non-empty, and
is left `undefined` otherwise. -/
def scrapeTags (txns : List Transaction) : List (List Cell) :=
  txns.map (fun txn =>
    [if txn.tags.length > 0 then some (String.intercalate "," txn.tags) else none])

/-! ### Concrete sample data (used to instantiate the theorems below) -/

/-- A transaction row as the Transactions sheet supplies it: empty category
and tags, amount cell `"$4.50"`. -/
def sampleTxn : Transaction :=
  Transaction.new ["2024-01-01", "CAFE LATTE", "", "", "$4.50", "Checking", "1234",
    "Bank", "2024-01-01", "2024-01-01", "CAFE LATTE #42", "", "tx-1"] (some 2)

/-- The same row but with a pre-existing category. -/
def sampleTxnCat : Transaction :=
  Transaction.new ["2024-01-01", "CAFE LATTE", "Prior", "", "$4.50", "Checking", "1234",
    "Bank", "2024-01-01", "2024-01-01", "CAFE LATTE #42", "", "tx-2"] (some 3)

/-- A transaction that already carries two tags. -/
def sampleTxnTagged : Transaction :=
  { sampleTxn with tags := ["dining", "x"] }

/-- A rule matching description `CAFE` and positive amounts. -/
def ruleFood : Rule := Rule.new "Food" "dining" "CAFE" "" "" ">0"

/-- An all-wildcard rule. -/
def ruleExtra : Rule := Rule.new "Extra" "bonus" "" "" "" ""

/-- An all-wildcard rule whose category is the empty string. -/
def ruleEmptyCat : Rule := Rule.new "" "notag" "" "" "" ""

/-! ### Basic lemmas about the set model -/

theorem mem_setAdd (l : List String) (x y : String) :
    x ∈ setAdd l y ↔ x ∈ l ∨ x = y := by
  unfold setAdd
  split
  · rename_i h
    constructor
    · exact Or.inl
    · rintro (hx | rfl)
      · exact hx
      · exact h
  · simp [or_comm]

theorem setAdd_of_mem {l : List String} {y : String} (h : y ∈ l) :
    setAdd l y = l := by
  unfold setAdd
  simp [h]

theorem mem_foldl_setAdd (xs : List String) (l : List String) (x : String) :
    x ∈ xs.foldl setAdd l ↔ x ∈ l ∨ x ∈ xs := by
  induction xs generalizing l with
  | nil => simp
  | cons y ys ih =>
      simp only [List.foldl_cons, ih, mem_setAdd, List.mem_cons]
      tauto

theorem foldl_setAdd_of_subset {xs l : List String} (h : ∀ x ∈ xs, x ∈ l) :
    xs.foldl setAdd l = l := by
  induction xs with
  | nil => rfl
  | cons y ys ih =>
      have hy : y ∈ l := h y (by simp)
      simp only [List.foldl_cons, setAdd_of_mem hy]
      exact ih (fun x hx => h x (by simp [hx]))

/-! ### Structural lemmas about one inner-loop iteration -/

/-- `applyRule` in fully distributed form (the category update never touches
the tags, so the tag union can be pushed into both branches). -/
theorem applyRule_eq (u : Bool) (t : Transaction) (r : Rule) :
    applyRule u t r =
      if ruleMatch r t then
        if categorizable u t then
          { t with category := r.category, categorized := true,
                   tags := r.tag.foldl setAdd t.tags }
        else
          { t with tags := r.tag.foldl setAdd t.tags }
      else t := by
  unfold applyRule
  rcases Bool.eq_false_or_eq_true (ruleMatch r t) with h | h <;>
    rcases Bool.eq_false_or_eq_true (categorizable u t) with h2 | h2 <;>
      simp [h, h2]

theorem applyRule_description (u : Bool) (t : Transaction) (r : Rule) :
    (applyRule u t r).description = t.description := by
  rw [applyRule_eq]
  split
  · split <;> rfl
  · rfl

theorem applyRule_account (u : Bool) (t : Transaction) (r : Rule) :
    (applyRule u t r).account = t.account := by
  rw [applyRule_eq]
  split
  · split <;> rfl
  · rfl

theorem applyRule_institution (u : Bool) (t : Transaction) (r : Rule) :
    (applyRule u t r).institution = t.institution := by
  rw [applyRule_eq]
  split
  · split <;> rfl
  · rfl

theorem applyRule_amount (u : Bool) (t : Transaction) (r : Rule) :
    (applyRule u t r).amount = t.amount := by
  rw [applyRule_eq]
  split
  · split <;> rfl
  · rfl

theorem applyRule_address (u : Bool) (t : Transaction) (r : Rule) :
    (applyRule u t r).address = t.address := by
  rw [applyRule_eq]
  split
  · split <;> rfl
  · rfl

theorem applyRule_date (u : Bool) (t : Transaction) (r : Rule) :
    (applyRule u t r).date = t.date := by
  rw [applyRule_eq]
  split
  · split <;> rfl
  · rfl

theorem applyRule_accountNum (u : Bool) (t : Transaction) (r : Rule) :
    (applyRule u t r).accountNum = t.accountNum := by
  rw [applyRule_eq]
  split
  · split <;> rfl
  · rfl

theorem applyRule_month (u : Bool) (t : Transaction) (r : Rule) :
    (applyRule u t r).month = t.month := by
  rw [applyRule_eq]
  split
  · split <;> rfl
  · rfl

theorem applyRule_week (u : Bool) (t : Transaction) (r : Rule) :
    (applyRule u t r).week = t.week := by
  rw [applyRule_eq]
  split
  · split <;> rfl
  · rfl

theorem applyRule_fullDescription (u : Bool) (t : Transaction) (r : Rule) :
    (applyRule u t r).fullDescription = t.fullDescription := by
  rw [applyRule_eq]
  split
  · split <;> rfl
  · rfl

theorem applyRule_checkNumber (u : Bool) (t : Transaction) (r : Rule) :
    (applyRule u t r).checkNumber = t.checkNumber := by
  rw [applyRule_eq]
  split
  · split <;> rfl
  · rfl

theorem applyRule_transactionId (u : Bool) (t : Transaction) (r : Rule) :
    (applyRule u t r).transactionId = t.transactionId := by
  rw [applyRule_eq]
  split
  · split <;> rfl
  · rfl

/-- The four matching predicates read only fields `applyRule` never writes,
so whether a rule fires is stable under the inner loop. -/
theorem ruleMatch_applyRule (u : Bool) (t : Transaction) (r r' : Rule) :
    ruleMatch r' (applyRule u t r) = ruleMatch r' t := by
  unfold ruleMatch
  rw [applyRule_description, applyRule_account, applyRule_institution, applyRule_amount]

theorem applyRule_category (u : Bool) (t : Transaction) (r : Rule) :
    (applyRule u t r).category =
      if ruleMatch r t && categorizable u t then r.category else t.category := by
  rw [applyRule_eq]
  rcases Bool.eq_false_or_eq_true (ruleMatch r t) with h | h <;>
    rcases Bool.eq_false_or_eq_true (categorizable u t) with h2 | h2 <;>
      simp [h, h2]

theorem applyRule_categorized (u : Bool) (t : Transaction) (r : Rule) :
    (applyRule u t r).categorized =
      (t.categorized || (ruleMatch r t && categorizable u t)) := by
  rw [applyRule_eq]
  rcases Bool.eq_false_or_eq_true (ruleMatch r t) with h | h <;>
    rcases Bool.eq_false_or_eq_true (categorizable u t) with h2 | h2 <;>
      simp [h, h2]

theorem applyRule_tags (u : Bool) (t : Transaction) (r : Rule) :
    (applyRule u t r).tags =
      if ruleMatch r t then r.tag.foldl setAdd t.tags else t.tags := by
  rw [applyRule_eq]
  rcases Bool.eq_false_or_eq_true (ruleMatch r t) with h | h <;>
    rcases Bool.eq_false_or_eq_true (categorizable u t) with h2 | h2 <;>
      simp [h, h2]

/-! ### Lemmas about the full inner loop -/

theorem runRulesOne_nil (u : Bool) (t : Transaction) :
    runRulesOne [] u t = t := rfl

theorem runRulesOne_cons (r : Rule) (rs : List Rule) (u : Bool) (t : Transaction) :
    runRulesOne (r :: rs) u t = runRulesOne rs u (applyRule u t r) := rfl

theorem runRulesOne_description (rs : List Rule) (u : Bool) (t : Transaction) :
    (runRulesOne rs u t).description = t.description := by
  induction rs generalizing t with
  | nil => rfl
  | cons r rs ih => rw [runRulesOne_cons, ih, applyRule_description]

theorem runRulesOne_account (rs : List Rule) (u : Bool) (t : Transaction) :
    (runRulesOne rs u t).account = t.account := by
  induction rs generalizing t with
  | nil => rfl
  | cons r rs ih => rw [runRulesOne_cons, ih, applyRule_account]

theorem runRulesOne_institution (rs : List Rule) (u : Bool) (t : Transaction) :
    (runRulesOne rs u t).institution = t.institution := by
  induction rs generalizing t with
  | nil => rfl
  | cons r rs ih => rw [runRulesOne_cons, ih, applyRule_institution]

theorem runRulesOne_amount (rs : List Rule) (u : Bool) (t : Transaction) :
    (runRulesOne rs u t).amount = t.amount := by
  induction rs generalizing t with
  | nil => rfl
  | cons r rs ih => rw [runRulesOne_cons, ih, applyRule_amount]

theorem runRulesOne_address (rs : List Rule) (u : Bool) (t : Transaction) :
    (runRulesOne rs u t).address = t.address := by
  induction rs generalizing t with
  | nil => rfl
  | cons r rs ih => rw [runRulesOne_cons, ih, applyRule_address]

theorem runRulesOne_date (rs : List Rule) (u : Bool) (t : Transaction) :
    (runRulesOne rs u t).date = t.date := by
  induction rs generalizing t with
  | nil => rfl
  | cons r rs ih => rw [runRulesOne_cons, ih, applyRule_date]

theorem runRulesOne_accountNum (rs : List Rule) (u : Bool) (t : Transaction) :
    (runRulesOne rs u t).accountNum = t.accountNum := by
  induction rs generalizing t with
  | nil => rfl
  | cons r rs ih => rw [runRulesOne_cons, ih, applyRule_accountNum]

theorem runRulesOne_month (rs : List Rule) (u : Bool) (t : Transaction) :
    (runRulesOne rs u t).month = t.month := by
  induction rs generalizing t with
  | nil => rfl
  | cons r rs ih => rw [runRulesOne_cons, ih, applyRule_month]

theorem runRulesOne_week (rs : List Rule) (u : Bool) (t : Transaction) :
    (runRulesOne rs u t).week = t.week := by
  induction rs generalizing t with
  | nil => rfl
  | cons r rs ih => rw [runRulesOne_cons, ih, applyRule_week]

theorem runRulesOne_fullDescription (rs : List Rule) (u : Bool) (t : Transaction) :
    (runRulesOne rs u t).fullDescription = t.fullDescription := by
  induction rs generalizing t with
  | nil => rfl
  | cons r rs ih => rw [runRulesOne_cons, ih, applyRule_fullDescription]

theorem runRulesOne_checkNumber (rs : List Rule) (u : Bool) (t : Transaction) :
    (runRulesOne rs u t).checkNumber = t.checkNumber := by
  induction rs generalizing t with
  | nil => rfl
  | cons r rs ih => rw [runRulesOne_cons, ih, applyRule_checkNumber]

theorem runRulesOne_transactionId (rs : List Rule) (u : Bool) (t : Transaction) :
    (runRulesOne rs u t).transactionId = t.transactionId := by
  induction rs generalizing t with
  | nil => rfl
  | cons r rs ih => rw [runRulesOne_cons, ih, applyRule_transactionId]

theorem ruleMatch_runRulesOne (rs : List Rule) (u : Bool) (t : Transaction) (r' : Rule) :
    ruleMatch r' (runRulesOne rs u t) = ruleMatch r' t := by
  unfold ruleMatch
  rw [runRulesOne_description, runRulesOne_account, runRulesOne_institution,
    runRulesOne_amount]

/-- Once `categorized` is set, the rest of the loop never touches the
category again (for either value of `uncategorizedOnly`). -/
theorem runRulesOne_of_categorized (rs : List Rule) (u : Bool) (t : Transaction)
    (h : t.categorized = true) :
    (runRulesOne rs u t).category = t.category ∧
      (runRulesOne rs u t).categorized = true := by
  induction rs generalizing t with
  | nil => exact ⟨rfl, h⟩
  | cons r rs ih =>
      have hc : categorizable u t = false := by
        unfold categorizable
        rw [h]
        rfl
      have h1 : (applyRule u t r).categorized = true := by
        rw [applyRule_categorized, h]
        rfl
      have h2 : (applyRule u t r).category = t.category := by
        rw [applyRule_category, hc]
        simp
      rw [runRulesOne_cons]
      exact ⟨by rw [(ih _ h1).1, h2], (ih _ h1).2⟩

/-- With `uncategorizedOnly = true`, a transaction whose category is a
non-empty string is never recategorized, and its `categorized` flag is
never flipped either. -/
theorem runRulesOne_true_of_ne (rs : List Rule) (t : Transaction)
    (h : t.category ≠ "") :
    (runRulesOne rs true t).category = t.category ∧
      (runRulesOne rs true t).categorized = t.categorized := by
  induction rs generalizing t with
  | nil => exact ⟨rfl, rfl⟩
  | cons r rs ih =>
      have hc : categorizable true t = false := by
        unfold categorizable
        simp [h]
      have h2 : (applyRule true t r).category = t.category := by
        rw [applyRule_category, hc]
        simp
      have h3 : (applyRule true t r).categorized = t.categorized := by
        rw [applyRule_categorized, hc]
        simp
      rw [runRulesOne_cons]
      have ih' := ih (applyRule true t r) (by rw [h2]; exact h)
      exact ⟨by rw [ih'.1, h2], by rw [ih'.2, h3]⟩

/-- Full characterization of the category fields of the inner loop on a
not-yet-categorized transaction through whose gate a category may pass:
the final category is the first firing rule's category, and the flag ends
up set iff some rule fires. -/
theorem runRulesOne_uncategorized (rs : List Rule) (u : Bool) (t : Transaction)
    (h : t.categorized = false) (hg : u = false ∨ t.category = "") :
    (runRulesOne rs u t).category
        = ((rs.find? fun r => ruleMatch r t).map Rule.category).getD t.category ∧
      (runRulesOne rs u t).categorized = rs.any fun r => ruleMatch r t := by
  induction rs generalizing t with
  | nil => exact ⟨rfl, h⟩
  | cons r rs ih =>
      rw [runRulesOne_cons]
      rcases Bool.eq_false_or_eq_true (ruleMatch r t) with hm | hm
      · have hc : categorizable u t = true := by
          unfold categorizable
          rw [h]
          rcases hg with hu | hcat
          · rw [hu]
            rfl
          · simp [hcat]
        have h1 : (applyRule u t r).categorized = true := by
          rw [applyRule_categorized, hm, hc, h]
          rfl
        have h2 : (applyRule u t r).category = r.category := by
          rw [applyRule_category, hm, hc]
          rfl
        have hrest := runRulesOne_of_categorized rs u (applyRule u t r) h1
        refine ⟨?_, ?_⟩
        · rw [hrest.1, h2]
          simp [List.find?_cons, hm]
        · rw [hrest.2]
          simp [List.any_cons, hm]
      · have e : applyRule u t r = t := by
          rw [applyRule_eq, hm]
          simp
        rw [e]
        have ih' := ih t h hg
        refine ⟨?_, ?_⟩
        · rw [ih'.1]
          simp [List.find?_cons, hm]
        · rw [ih'.2]
          simp [List.any_cons, hm]

/-- Tag-set membership after the inner loop: the union of the initial tags
with the tags of every firing rule. -/
theorem mem_tags_applyRule (u : Bool) (t : Transaction) (r : Rule) (x : String) :
    x ∈ (applyRule u t r).tags ↔
      x ∈ t.tags ∨ (ruleMatch r t = true ∧ x ∈ r.tag) := by
  rw [applyRule_tags]
  rcases Bool.eq_false_or_eq_true (ruleMatch r t) with hm | hm <;>
    simp [hm, mem_foldl_setAdd]

theorem mem_tags_runRulesOne (rs : List Rule) (u : Bool) (t : Transaction) (x : String) :
    x ∈ (runRulesOne rs u t).tags ↔
      x ∈ t.tags ∨ ∃ r ∈ rs, ruleMatch r t = true ∧ x ∈ r.tag := by
  induction rs generalizing t with
  | nil => simp [runRulesOne_nil]
  | cons r rs ih =>
      rw [runRulesOne_cons, ih, mem_tags_applyRule]
      constructor
      · rintro ((hx | ⟨hm, hx⟩) | ⟨r', hr', hm, hx⟩)
        · exact Or.inl hx
        · exact Or.inr ⟨r, by simp, hm, hx⟩
        · rw [ruleMatch_applyRule] at hm
          exact Or.inr ⟨r', by simp [hr'], hm, hx⟩
      · rintro (hx | ⟨r', hr', hm, hx⟩)
        · exact Or.inl (Or.inl hx)
        · rcases List.mem_cons.mp hr' with rfl | hr'
          · exact Or.inl (Or.inr ⟨hm, hx⟩)
          · exact Or.inr ⟨r', hr', by rw [ruleMatch_applyRule]; exact hm, hx⟩

/-- A transaction on which the loop has nothing left to do (every firing
rule's tags are already present, and either the flag is set or no rule
fires) is a fixpoint of the inner loop. -/
theorem runRulesOne_fixpoint (rs : List Rule) (u : Bool) (t : Transaction)
    (htags : ∀ r ∈ rs, ruleMatch r t = true → ∀ x ∈ r.tag, x ∈ t.tags)
    (hcat : t.categorized = true ∨ ∀ r ∈ rs, ruleMatch r t = false) :
    runRulesOne rs u t = t := by
  induction rs generalizing t with
  | nil => rfl
  | cons r rs ih =>
      have e : applyRule u t r = t := by
        rcases Bool.eq_false_or_eq_true (ruleMatch r t) with hm | hm
        · have hz : t.categorized = true := by
            rcases hcat with hz | hnone
            · exact hz
            · exact absurd hm (by simp [hnone r (by simp)])
          have hc : categorizable u t = false := by
            unfold categorizable
            rw [hz]
            rfl
          have ht : r.tag.foldl setAdd t.tags = t.tags :=
            foldl_setAdd_of_subset (htags r (by simp) hm)
          rw [applyRule_eq, hm, hc]
          simp [ht]
        · rw [applyRule_eq, hm]
          simp
      rw [runRulesOne_cons, e]
      refine ih t (fun r' hr' => htags r' (by simp [hr'])) ?_
      rcases hcat with hz | hnone
      · exact Or.inl hz
      · exact Or.inr (fun r' hr' => hnone r' (by simp [hr']))

/-- Running the inner loop a second time with `uncategorizedOnly = false`
changes nothing. -/
theorem runRulesOne_idem (rs : List Rule) (t : Transaction) :
    runRulesOne rs false (runRulesOne rs false t) = runRulesOne rs false t := by
  apply runRulesOne_fixpoint
  · intro r hr hm x hx
    rw [ruleMatch_runRulesOne] at hm
    exact (mem_tags_runRulesOne rs false t x).mpr (Or.inr ⟨r, hr, hm, hx⟩)
  · rcases Bool.eq_false_or_eq_true t.categorized with hz | hz
    · exact Or.inl (runRulesOne_of_categorized rs false t hz).2
    · rcases Bool.eq_false_or_eq_true (rs.any fun r => ruleMatch r t) with hany | hany
      · exact Or.inl ((runRulesOne_uncategorized rs false t hz (Or.inl rfl)).2.trans hany)
      · refine Or.inr (fun r hr => ?_)
        rw [ruleMatch_runRulesOne]
        have := (List.any_eq_false).mp hany r hr
        simpa using this

/-! ### Substring containment -/

theorem startMatch_iff (sub l : List Char) :
    startMatch sub l = true ↔ ∃ post, l = sub ++ post := by
  induction sub generalizing l with
  | nil => simp [startMatch]
  | cons c cs ih =>
      cases l with
      | nil => simp [startMatch]
      | cons d ds =>
          simp only [startMatch, Bool.and_eq_true, beq_iff_eq, ih, List.cons_append,
            List.cons.injEq]
          constructor
          · rintro ⟨rfl, post, rfl⟩
            exact ⟨post, rfl, rfl⟩
          · rintro ⟨post, rfl, rfl⟩
            exact ⟨rfl, post, rfl⟩

theorem occursIn_iff (sub l : List Char) :
    occursIn sub l = true ↔ ∃ pre post, l = pre ++ sub ++ post := by
  induction l with
  | nil =>
      simp only [occursIn, List.isEmpty_iff]
      constructor
      · rintro rfl
        exact ⟨[], [], rfl⟩
      · rintro ⟨pre, post, h⟩
        rcases List.append_eq_nil.mp (List.append_eq_nil.mp h.symm).1 with ⟨-, h2⟩
        exact h2
  | cons c rest ih =>
      simp only [occursIn, Bool.or_eq_true, startMatch_iff, ih]
      constructor
      · rintro (⟨post, h⟩ | ⟨pre, post, h⟩)
        · exact ⟨[], post, by simpa using h⟩
        · exact ⟨c :: pre, post, by simp [h]⟩
      · rintro ⟨pre, post, h⟩
        cases pre with
        | nil => exact Or.inl ⟨post, by simpa using h⟩
        | cons c' pre' =>
            injection h with h1 h2
            exact Or.inr ⟨pre', post, h2⟩

theorem jsIncludes_iff (s sub : String) :
    jsIncludes s sub = true ↔ ∃ pre post, s.data = pre ++ sub.data ++ post := by
  exact occursIn_iff sub.data s.data

/-! ### NaN comparison helpers -/

theorem jsGt_none (a : JsNumber) : jsGt a none = false := by
  cases a <;> rfl

theorem jsLt_none (a : JsNumber) : jsLt a none = false := by
  cases a <;> rfl

theorem jsGt_some (a b : ℚ) : jsGt (some a) (some b) = decide (b < a) := rfl

theorem jsLt_some (a b : ℚ) : jsLt (some a) (some b) = decide (a < b) := rfl

/-! ### The pass as a map over the ordered transaction collection -/

theorem runRules_get (rules : List Rule) (txns : List Transaction) (u : Bool)
    (i : ℕ) (hi : i < txns.length) (h1 : i < (runRules rules txns u).length) :
    (runRules rules txns u).get ⟨i, h1⟩ = runRulesOne rules u (txns.get ⟨i, hi⟩) := by
  simp [runRules]

theorem scrapeTags_get (txns : List Transaction) (i : ℕ) (hi : i < txns.length)
    (h1 : i < (scrapeTags txns).length) :
    (scrapeTags txns).get ⟨i, h1⟩ =
      [if (txns.get ⟨i, hi⟩).tags.length > 0
        then some (String.intercalate "," (txns.get ⟨i, hi⟩).tags) else none] := by
  simp [scrapeTags]

/-! ### Claim theorems -/

/-- **C1** First-match-wins category assignment: when `runRules` processes a
freshly constructed transaction (`categorized = false`) whose gate admits a
category (`uncategorizedOnly = false`, as in the only call site, or an empty
pre-existing category), the final category is the category of the first rule
in list order that fires on it (all four predicates true) — later firing
rules never overwrite it — and the transaction ends up flagged as
categorized iff some rule fires, even when the first firing rule's category
is the empty string. -/
theorem C1_first_match_wins (rules : List Rule) (txns : List Transaction)
    (u : Bool) (i : ℕ) (hi : i < txns.length)
    (h1 : i < (runRules rules txns u).length)
    (hfresh : (txns.get ⟨i, hi⟩).categorized = false)
    (hgate : u = false ∨ (txns.get ⟨i, hi⟩).category = "") :
    ((runRules rules txns u).get ⟨i, h1⟩).category
        = ((rules.find? fun r => ruleMatch r (txns.get ⟨i, hi⟩)).map Rule.category).getD
            (txns.get ⟨i, hi⟩).category ∧
      ((runRules rules txns u).get ⟨i, h1⟩).categorized
        = rules.any fun r => ruleMatch r (txns.get ⟨i, hi⟩) := by
  rw [runRules_get rules txns u i hi h1]
  exact runRulesOne_uncategorized rules u _ hfresh hgate

theorem C1_witness :
    (((runRules [ruleFood, ruleExtra] [sampleTxn] false).get ⟨0, by decide⟩).category = "Food" ∧
      ((runRules [ruleFood, ruleExtra] [sampleTxn] false).get ⟨0, by decide⟩).categorized = true) ∧
      (((runRules [ruleEmptyCat, ruleExtra] [sampleTxn] false).get ⟨0, by decide⟩).category = "" ∧
        ((runRules [ruleEmptyCat, ruleExtra] [sampleTxn] false).get ⟨0, by decide⟩).categorized
          = true) := by
  have h := C1_first_match_wins [ruleFood, ruleExtra] [sampleTxn] false 0 (by decide)
    (by decide) (by decide) (Or.inl rfl)
  have h' := C1_first_match_wins [ruleEmptyCat, ruleExtra] [sampleTxn] false 0 (by decide)
    (by decide) (by decide) (Or.inl rfl)
  exact ⟨⟨h.1.trans (by decide), h.2.trans (by decide)⟩,
    ⟨h'.1.trans (by decide), h'.2.trans (by decide)⟩⟩

/-- **C2** Unconditional cumulative tag union: after `runRules`, a string is
in a transaction's tag set iff it was there initially or belongs to the tags
of some firing rule, for any value of `uncategorizedOnly` — so the final tag
set (as a set) is the union of the initial tags with the tags of all firing
rules, and is the same for any permutation of the rule list. -/
theorem C2_tag_union (rules rules' : List Rule) (txns : List Transaction) (u : Bool)
    (i : ℕ) (x : String) (hi : i < txns.length)
    (h1 : i < (runRules rules txns u).length)
    (h2 : i < (runRules rules' txns u).length)
    (hperm : List.Perm rules rules') :
    (x ∈ ((runRules rules txns u).get ⟨i, h1⟩).tags ↔
        x ∈ (txns.get ⟨i, hi⟩).tags ∨
          ∃ r ∈ rules, ruleMatch r (txns.get ⟨i, hi⟩) = true ∧ x ∈ r.tag) ∧
      (x ∈ ((runRules rules' txns u).get ⟨i, h2⟩).tags ↔
        x ∈ ((runRules rules txns u).get ⟨i, h1⟩).tags) := by
  rw [runRules_get rules txns u i hi h1, runRules_get rules' txns u i hi h2]
  refine ⟨mem_tags_runRulesOne _ _ _ _, ?_⟩
  rw [mem_tags_runRulesOne, mem_tags_runRulesOne]
  exact or_congr Iff.rfl
    (exists_congr fun r => and_congr (hperm.mem_iff.symm) Iff.rfl)

theorem C2_witness :
    "dining" ∈ ((runRules [ruleFood, ruleExtra] [sampleTxn] false).get ⟨0, by decide⟩).tags ∧
      "dining" ∈ ((runRules [ruleExtra, ruleFood] [sampleTxn] false).get ⟨0, by decide⟩).tags := by
  have h := C2_tag_union [ruleFood, ruleExtra] [ruleExtra, ruleFood] [sampleTxn] false 0
    "dining" (by decide) (by decide) (by decide) (List.Perm.swap ruleExtra ruleFood [])
  have h1 := h.1.mpr (Or.inr ⟨ruleFood, by decide, by decide, by decide⟩)
  exact ⟨h1, h.2.mpr h1⟩

/-- **C3** Amount bound policy, bounds strictly exclusive: when the amount
filter parses to no bound on either side, `matchAmount` is always true;
with only a lower bound `L`, it is `L < n`; with only an upper bound `U`,
it is `n < U`; with both, it is `L < n ∧ n < U`; and for the filter
`">100<200"`, 150 matches while 100, 200 and 250 do not. -/
theorem C3_matchAmount_policy (r : Rule) (n L U : ℚ) (capL capU : List Char) :
    (execCapture '>' r.amount.data = none → execCapture '<' r.amount.data = none →
        r.matchAmount (some n) = true) ∧
      (execCapture '>' r.amount.data = some capL → parseFloat capL = some L →
        execCapture '<' r.amount.data = none →
        r.matchAmount (some n) = decide (L < n)) ∧
      (execCapture '>' r.amount.data = none →
        execCapture '<' r.amount.data = some capU → parseFloat capU = some U →
        r.matchAmount (some n) = decide (n < U)) ∧
      (execCapture '>' r.amount.data = some capL → parseFloat capL = some L →
        execCapture '<' r.amount.data = some capU → parseFloat capU = some U →
        r.matchAmount (some n) = (decide (L < n) && decide (n < U))) ∧
      (r.amount = ">100<200" →
        r.matchAmount (some 150) = true ∧ r.matchAmount (some 100) = false ∧
          r.matchAmount (some 200) = false ∧ r.matchAmount (some 250) = false) := by
  refine ⟨?_, ?_, ?_, ?_, ?_⟩
  · intro hl hu
    simp [Rule.matchAmount, hl, hu]
  · intro hl hpf hu
    simp [Rule.matchAmount, hl, hu, hpf, jsGt_some]
  · intro hl hu hpf
    simp [Rule.matchAmount, hl, hu, hpf, jsLt_some]
  · intro hl hpfl hu hpfu
    simp [Rule.matchAmount, hl, hu, hpfl, hpfu, jsGt_some, jsLt_some]
  · intro h
    have e : ∀ m, r.matchAmount m = (Rule.new "" "" "" "" "" ">100<200").matchAmount m := by
      intro m
      simp [Rule.matchAmount, h, Rule.new]
    rw [e, e, e, e]
    exact ⟨by decide, by decide, by decide, by decide⟩

theorem C3_witness :
    ((Rule.new "" "" "" "" "" ">100<200").matchAmount (some 150) = true ∧
      (Rule.new "" "" "" "" "" ">100<200").matchAmount (some 100) = false ∧
      (Rule.new "" "" "" "" "" ">100<200").matchAmount (some 200) = false ∧
      (Rule.new "" "" "" "" "" ">100<200").matchAmount (some 250) = false) ∧
      (Rule.new "" "" "" "" "" "no bounds here").matchAmount (some 7) = true ∧
      (Rule.new "" "" "" "" "" ">5").matchAmount (some 7) = true := by
  refine ⟨(C3_matchAmount_policy (Rule.new "" "" "" "" "" ">100<200") 0 0 0 [] []).2.2.2.2
    rfl, ?_, ?_⟩
  · exact (C3_matchAmount_policy (Rule.new "" "" "" "" "" "no bounds here") 7 0 0 [] []).1
      (by decide) (by decide)
  · exact ((C3_matchAmount_policy (Rule.new "" "" "" "" "" ">5") 7 5 0 ['5'] []).2.1
      (by decide) (by decide) (by decide)).trans (by decide)

/-- **C4** Idempotence: running the categorization pass twice in sequence
with `uncategorizedOnly = false` on the same (already mutated) transaction
collection yields exactly the same transactions — category, flag and tag
set included — as running it once. -/
theorem C4_idempotent (rules : List Rule) (txns : List Transaction) :
    runRules rules (runRules rules txns false) false = runRules rules txns false := by
  induction txns with
  | nil => rfl
  | cons t ts ih =>
      simp only [runRules, List.map_cons, List.map_map] at *
      exact List.cons_eq_cons.mpr ⟨runRulesOne_idem rules t, ih⟩

/-- **C5** The `uncategorizedOnly = true` gate: a transaction with a
non-empty pre-existing category is never recategorized, yet still receives
the tag union of every firing rule; and in general a single loop iteration
can change the category only when the transaction is not yet categorized
and either `uncategorizedOnly` is false or the category is empty. -/
theorem C5_uncategorizedOnly_gate (rules : List Rule) (txns : List Transaction)
    (i : ℕ) (x : String) (hi : i < txns.length)
    (h1 : i < (runRules rules txns true).length)
    (hcat : (txns.get ⟨i, hi⟩).category ≠ "") :
    ((runRules rules txns true).get ⟨i, h1⟩).category = (txns.get ⟨i, hi⟩).category ∧
      (x ∈ ((runRules rules txns true).get ⟨i, h1⟩).tags ↔
        x ∈ (txns.get ⟨i, hi⟩).tags ∨
          ∃ r ∈ rules, ruleMatch r (txns.get ⟨i, hi⟩) = true ∧ x ∈ r.tag) ∧
      (∀ (u : Bool) (t : Transaction) (r : Rule),
        (applyRule u t r).category ≠ t.category →
          t.categorized = false ∧ (u = false ∨ t.category = "")) := by
  rw [runRules_get rules txns true i hi h1]
  refine ⟨(runRulesOne_true_of_ne rules _ hcat).1, mem_tags_runRulesOne _ _ _ _, ?_⟩
  intro u t r hch
  rcases Bool.eq_false_or_eq_true (ruleMatch r t && categorizable u t) with hb | hb
  · have hc : categorizable u t = true := by
      simp only [Bool.and_eq_true] at hb
      exact hb.2
    unfold categorizable at hc
    simp only [Bool.and_eq_true] at hc
    refine ⟨by simpa using hc.1, ?_⟩
    cases u with
    | false => exact Or.inl rfl
    | true =>
        refine Or.inr ?_
        have := hc.2
        simp only [Bool.not_true, Bool.false_or, Bool.true_and] at this
        exact of_decide_eq_true (by simpa using this)
  · rw [applyRule_category, hb] at hch
    simp at hch

theorem C5_witness :
    ((runRules [ruleFood] [sampleTxnCat] true).get ⟨0, by decide⟩).category = "Prior" ∧
      "dining" ∈ ((runRules [ruleFood] [sampleTxnCat] true).get ⟨0, by decide⟩).tags := by
  have h := C5_uncategorizedOnly_gate [ruleFood] [sampleTxnCat] 0 "dining" (by decide)
    (by decide) (by decide)
  exact ⟨h.1.trans (by decide), h.2.1.mpr (Or.inr ⟨ruleFood, by decide, by decide, by decide⟩)⟩

/-- **C6 (counterexample)** The amount filter `">-"` is not of the literal
forms `>N`, `<N`, `>N<M` and has no parseable numeric bound on either side
(its only regex capture is `"-"`, whose `parseFloat` is `NaN`, and the upper
regex matches nowhere), yet `matchAmount 0` is `false`, where the claim
demands `true` for every number. -/
theorem C6_counterexample :
    (Rule.new "" "" "" "" "" ">-").matchAmount (some 0) = false ∧
      execCapture '<' ((Rule.new "" "" "" "" "" ">-").amount).data = none ∧
      parseFloat ((execCapture '>' ((Rule.new "" "" "" "" "" ">-").amount).data).getD [])
        = none := by
  decide

/-- **C6 (amended)** Malformed amount expressions raise no error.  A side is
treated as having no bound exactly when its bound regex matches nowhere in
the filter string; when neither regex matches, `matchAmount` is true for
every number.  But when a regex does match and the captured text is not
parseable as a number (`parseFloat` yields `NaN`, e.g. filter `">-"`), the
`NaN` comparison makes `matchAmount` false for every number, rather than
treating that side as unbounded. -/
theorem C6_amended (r : Rule) (n : JsNumber) :
    (execCapture '>' r.amount.data = none → execCapture '<' r.amount.data = none →
        r.matchAmount n = true) ∧
      (∀ cap, execCapture '>' r.amount.data = some cap → parseFloat cap = none →
        r.matchAmount n = false) ∧
      (∀ cap, execCapture '<' r.amount.data = some cap → parseFloat cap = none →
        r.matchAmount n = false) := by
  refine ⟨fun hl hu => by simp [Rule.matchAmount, hl, hu], ?_, ?_⟩
  · intro cap hl hpf
    cases hu : execCapture '<' r.amount.data <;>
      simp [Rule.matchAmount, hl, hu, hpf, jsGt_none]
  · intro cap hu hpf
    cases hl : execCapture '>' r.amount.data <;>
      simp [Rule.matchAmount, hl, hu, hpf, jsLt_none]

theorem C6_witness :
    (Rule.new "" "" "" "" "" "no bound at all").matchAmount (some 7) = true ∧
      (Rule.new "" "" "" "" "" ">-").matchAmount (some 7) = false := by
  refine ⟨(C6_amended (Rule.new "" "" "" "" "" "no bound at all") (some 7)).1
    (by decide) (by decide), ?_⟩
  exact (C6_amended (Rule.new "" "" "" "" "" ">-") (some 7)).2.1 ['-'] (by decide) (by decide)

/-- **C7** Projection preserves cardinality and order: `scrapeTags` emits
exactly one output row per input transaction, the row at each index
corresponding to the transaction at the same index (never re-sorted), and
for a transaction with a non-empty tag set the single cell is the
comma-join of its tags. -/
theorem C7_projection (txns : List Transaction) (i : ℕ) (hi : i < txns.length)
    (h1 : i < (scrapeTags txns).length) :
    (scrapeTags txns).length = txns.length ∧
      ((txns.get ⟨i, hi⟩).tags ≠ [] →
        (scrapeTags txns).get ⟨i, h1⟩ =
          [some (String.intercalate "," (txns.get ⟨i, hi⟩).tags)]) := by
  refine ⟨by simp [scrapeTags], fun hne => ?_⟩
  rw [scrapeTags_get txns i hi h1]
  simp only [List.get_eq_getElem] at hne ⊢
  have hp : 0 < txns[i].tags.length := List.length_pos.mpr hne
  simp [hp]

theorem C7_witness :
    (scrapeTags [sampleTxnTagged]).length = 1 ∧
      (scrapeTags [sampleTxnTagged]).get ⟨0, by decide⟩ = [some "dining,x"] := by
  have h := C7_projection [sampleTxnTagged] 0 (by decide) (by decide)
  refine ⟨h.1.trans (by decide), ?_⟩
  rw [h.2 (by decide)]
  decide

/-- **C8** Empty filter is a wildcard: an empty description / account /
institution filter makes the corresponding predicate true on every input,
and a non-empty filter matches exactly the strings containing it as a
case-sensitive contiguous substring. -/
theorem C8_wildcard_substring (r : Rule) (s : String) :
    (r.description = "" → r.matchDescription s = true) ∧
      (r.account = "" → r.matchAccount s = true) ∧
      (r.institution = "" → r.matchInstitution s = true) ∧
      (r.description ≠ "" → (r.matchDescription s = true ↔
        ∃ pre post, s.data = pre ++ r.description.data ++ post)) ∧
      (r.account ≠ "" → (r.matchAccount s = true ↔
        ∃ pre post, s.data = pre ++ r.account.data ++ post)) ∧
      (r.institution ≠ "" → (r.matchInstitution s = true ↔
        ∃ pre post, s.data = pre ++ r.institution.data ++ post)) := by
  refine ⟨fun h => ?_, fun h => ?_, fun h => ?_, fun h => ?_, fun h => ?_, fun h => ?_⟩ <;>
    simp [Rule.matchDescription, Rule.matchAccount, Rule.matchInstitution, h,
      jsIncludes_iff]

theorem C8_witness :
    ruleFood.matchAccount "Any Account" = true ∧
      ruleFood.matchDescription "CAFE LATTE" = true := by
  refine ⟨(C8_wildcard_substring ruleFood "Any Account").2.1 (by decide), ?_⟩
  exact ((C8_wildcard_substring ruleFood "CAFE LATTE").2.2.2.1 (by decide)).mpr
    ⟨[], " LATTE".data, by decide⟩

/-- **C9** Frame of the categorization pass: for every transaction in the
collection, `runRules` leaves every field other than `category`,
`categorized` and `tags` unchanged — date, description, fullDescription,
account, accountNum, institution, month, week, checkNumber, amount,
transactionId and address — for any rule list and either value of
`uncategorizedOnly`. -/
theorem C9_frame (rules : List Rule) (txns : List Transaction) (u : Bool)
    (i : ℕ) (hi : i < txns.length) (h1 : i < (runRules rules txns u).length) :
    ((runRules rules txns u).get ⟨i, h1⟩).date = (txns.get ⟨i, hi⟩).date ∧
      ((runRules rules txns u).get ⟨i, h1⟩).description = (txns.get ⟨i, hi⟩).description ∧
      ((runRules rules txns u).get ⟨i, h1⟩).fullDescription
        = (txns.get ⟨i, hi⟩).fullDescription ∧
      ((runRules rules txns u).get ⟨i, h1⟩).account = (txns.get ⟨i, hi⟩).account ∧
      ((runRules rules txns u).get ⟨i, h1⟩).accountNum = (txns.get ⟨i, hi⟩).accountNum ∧
      ((runRules rules txns u).get ⟨i, h1⟩).institution = (txns.get ⟨i, hi⟩).institution ∧
      ((runRules rules txns u).get ⟨i, h1⟩).month = (txns.get ⟨i, hi⟩).month ∧
      ((runRules rules txns u).get ⟨i, h1⟩).week = (txns.get ⟨i, hi⟩).week ∧
      ((runRules rules txns u).get ⟨i, h1⟩).checkNumber = (txns.get ⟨i, hi⟩).checkNumber ∧
      ((runRules rules txns u).get ⟨i, h1⟩).amount = (txns.get ⟨i, hi⟩).amount ∧
      ((runRules rules txns u).get ⟨i, h1⟩).transactionId
        = (txns.get ⟨i, hi⟩).transactionId ∧
      ((runRules rules txns u).get ⟨i, h1⟩).address = (txns.get ⟨i, hi⟩).address := by
  rw [runRules_get rules txns u i hi h1]
  exact ⟨runRulesOne_date _ _ _, runRulesOne_description _ _ _,
    runRulesOne_fullDescription _ _ _, runRulesOne_account _ _ _,
    runRulesOne_accountNum _ _ _, runRulesOne_institution _ _ _,
    runRulesOne_month _ _ _, runRulesOne_week _ _ _, runRulesOne_checkNumber _ _ _,
    runRulesOne_amount _ _ _, runRulesOne_transactionId _ _ _, runRulesOne_address _ _ _⟩

theorem C9_witness :
    ((runRules [ruleFood] [sampleTxn] false).get ⟨0, by decide⟩).amount = sampleTxn.amount ∧
      ((runRules [ruleFood] [sampleTxn] false).get ⟨0, by decide⟩).description
        = sampleTxn.description := by
  have h := C9_frame [ruleFood] [sampleTxn] false 0 (by decide) (by decide)
  exact ⟨h.2.2.2.2.2.2.2.2.2.1, h.2.1⟩

/-- **C10** Empty-tag projection cell is `undefined`, not the empty string:
for a transaction with an empty tag set, `scrapeTags` emits a row whose
single cell is `none` (JS `undefined`), never `some ""`, and every output
row has exactly one cell. -/
theorem C10_empty_cell (txns : List Transaction) (i : ℕ) (hi : i < txns.length)
    (h1 : i < (scrapeTags txns).length) :
    ((scrapeTags txns).get ⟨i, h1⟩).length = 1 ∧
      ((txns.get ⟨i, hi⟩).tags = [] →
        (scrapeTags txns).get ⟨i, h1⟩ = [(none : Cell)]) ∧
      ((txns.get ⟨i, hi⟩).tags = [] →
        (scrapeTags txns).get ⟨i, h1⟩ ≠ [some ""]) := by
  rw [scrapeTags_get txns i hi h1]
  refine ⟨rfl, fun he => ?_, fun he => ?_⟩ <;>
    · simp only [List.get_eq_getElem] at he ⊢
      simp [he]

theorem C10_witness :
    (scrapeTags [sampleTxn]).get ⟨0, by decide⟩ = [(none : Cell)] ∧
      ((scrapeTags [sampleTxn]).get ⟨0, by decide⟩).length = 1 := by
  have h := C10_empty_cell [sampleTxn] 0 (by decide) (by decide)
  exact ⟨h.2.1 (by decide), h.1⟩

end AutoTag
